import Mathlib

/-
Verification development for the rs-raytrace repository.

The scalar type `T` of the Rust sources (an abstract float, instantiated at
`f64`) is embedded as `ℚ`, so that every definition is executable and every
geometric predicate decidable.  The float literals `0.4` and `0.01` produced
by `T::from_f64` are idealised as the exact rationals `2/5` and `1/100`.
-/

namespace Raytrace

/-- Vector3 of vecmath: a triple of scalars (src uses `Vector3<T> = [T; 3]`). -/
structure Vec3 where
  x : ℚ
  y : ℚ
  z : ℚ
deriving DecidableEq

/-- vecmath vec3_dot. -/
def vec3_dot (a b : Vec3) : ℚ :=
  a.x * b.x + a.y * b.y + a.z * b.z

/-- vecmath vec3_cross. -/
def vec3_cross (a b : Vec3) : Vec3 :=
  ⟨a.y * b.z - a.z * b.y, a.z * b.x - a.x * b.z, a.x * b.y - a.y * b.x⟩

/-- vecmath vec3_add. -/
def vec3_add (a b : Vec3) : Vec3 :=
  ⟨a.x + b.x, a.y + b.y, a.z + b.z⟩

/-- vecmath vec3_sub. -/
def vec3_sub (a b : Vec3) : Vec3 :=
  ⟨a.x - b.x, a.y - b.y, a.z - b.z⟩

/-- vecmath vec3_scale. -/
def vec3_scale (a : Vec3) (s : ℚ) : Vec3 :=
  ⟨a.x * s, a.y * s, a.z * s⟩

/-- vecmath vec3_neg. -/
def vec3_neg (a : Vec3) : Vec3 :=
  ⟨-a.x, -a.y, -a.z⟩

/-- Color triple: `Rgb<T>` of the image crate, as used by main.rs
(channels are transport weights, per-channel arithmetic). -/
structure Rgb where
  r : ℚ
  g : ℚ
  b : ℚ
deriving DecidableEq

/-- Pixel::map2 of the image crate: element-wise combination of two colors. -/
def Rgb.map2 (a b : Rgb) (f : ℚ → ℚ → ℚ) : Rgb :=
  ⟨f a.r b.r, f a.g b.g, f a.b b.b⟩

/-- Black of surface.rs: the zero color. -/
def Rgb.black : Rgb := ⟨0, 0, 0⟩

/-- Ray of main.rs / geom.rs: `{ orig, dir }`. -/
structure Ray where
  orig : Vec3
  dir : Vec3
deriving DecidableEq

/-- Plane of main.rs / geom.rs: `{ n, d }` with `d = dot(n, point_on_plane)`. -/
structure Plane where
  n : Vec3
  d : ℚ
deriving DecidableEq

/-- Hit of main.rs / geom.rs: `{ point, dist }`. -/
structure Hit where
  point : Vec3
  dist : ℚ
deriving DecidableEq

/-- Poly of main.rs / geom.rs: three vertices, the derived plane, and a
payload.  The Rust array field `points: [Vector3<T>; 3]` is embedded as the
three fields `p0, p1, p2` (its elements `points[0..2]`).  main.rs names the
payload field `color : C`; geom.rs names it `surface : S`; both files define
the rest of the struct identically, so a single parametric structure embeds
both. -/
structure Poly (S : Type) where
  p0 : Vec3
  p1 : Vec3
  p2 : Vec3
  plane : Plane
  surface : S
deriving DecidableEq

/-- Edge containment test of Poly::hit: the candidate point `p` fails when
`dot(n, cross(points[(i+1) % 3] - points[i], p - points[i])) < 0`. -/
def edge_ok (n a b p : Vec3) : Prop :=
  ¬(vec3_dot n (vec3_cross (vec3_sub b a) (vec3_sub p a)) < 0)

instance (n a b p : Vec3) : Decidable (edge_ok n a b p) := by
  unfold edge_ok
  infer_instance

/-- Poly::hit of main.rs (lines 55-88) and geom.rs (lines 71-103), which are
textually identical: ray-plane intersection followed by the three cyclic
same-side edge tests.  The Rust `for i in 0..3` loop returns `None` as soon
as one edge test fails; all three passing is the unrolled conjunction below
(edges `(p0, p1)`, `(p1, p2)`, `(p2, p0)` — indices `(i, (i+1) % 3)`). -/
def Poly.hit {S : Type} (poly : Poly S) (ray : Ray) : Option Hit :=
  let n := poly.plane.n
  let dot := vec3_dot n ray.dir
  if dot = 0 then
    -- Ray is parallel to plane.
    none
  else
    -- Distance of ray to hit point of the plane.
    let d := (-(vec3_dot n ray.orig) + poly.plane.d) / dot
    if d ≤ 0 then
      -- Plane is behind the ray.
      none
    else
      -- Hit point on the plane.
      let p := vec3_add ray.orig (vec3_scale ray.dir d)
      if edge_ok n poly.p0 poly.p1 p ∧ edge_ok n poly.p1 poly.p2 p ∧
          edge_ok n poly.p2 poly.p0 p then
        some ⟨p, d⟩
      else
        -- Point is on wrong side of some edge.
        none

/-- Loop body of shoot (identical in main.rs lines 345-360 and geom.rs lines
28-43): keep the closest hit, replacing only when the stored distance is
strictly greater than the new one. -/
def shootStep {S : Type} (ray : Ray) (closest : Option (Hit × Poly S)) (p : Poly S) :
    Option (Hit × Poly S) :=
  match p.hit ray with
  | none => closest
  | some h =>
    match closest with
    | none => some (h, p)
    | some c => if c.1.dist > h.dist then some (h, p) else closest

/-- shoot of main.rs (lines 345-360): linear scan over the polys keeping the
closest hit.  geom.rs's shoot (lines 28-43) runs the same loop and then maps
the result to `(point, poly)`; see `geom_shoot`. -/
def shoot {S : Type} (polys : List (Poly S)) (ray : Ray) : Option (Hit × Poly S) :=
  polys.foldl (shootStep ray) none

/-- shoot of geom.rs (lines 28-43): the same scan, returning
`(hit point, poly)` via the final `closest.map`. -/
def geom_shoot {S : Type} (polys : List (Poly S)) (ray : Ray) : Option (Vec3 × Poly S) :=
  (shoot polys ray).map (fun c => (c.1.point, c.2))

/-- Surface of surface.rs: the two implementors Matt (line 36) and Light
(line 65) of the `Surface` trait, embedded as a sum as §9 of the design notes
suggests. -/
inductive Surface where
  | matt (color : Rgb)
  | light (color : Rgb)
deriving DecidableEq

/-- Surface::emitted: `Matt` emits black (surface.rs lines 41-43), `Light`
emits its color (surface.rs lines 70-72). -/
def Surface.emitted : Surface → Rgb
  | .matt _ => Rgb.black
  | .light color => color

/-- Surface::reflected: `Matt` (surface.rs lines 44-58) returns black on a
grazing incoming ray (`dot(i, n) == 0`), black when incoming and outgoing are
not on the same side (`dot(o, n) / v > 0`), and its color otherwise; `Light`
(surface.rs lines 73-75) returns black unconditionally. -/
def Surface.reflected (s : Surface) (n i o : Vec3) : Rgb :=
  match s with
  | .light _ => Rgb.black
  | .matt color =>
    let v := vec3_dot i n
    if v = 0 then
      -- Perpendicular to surface.
      Rgb.black
    else if vec3_dot o n / v > 0 then
      -- Rays are not on the same side of the surface.
      Rgb.black
    else
      color

/-- Scene of main.rs (lines 97-102). -/
structure Scene where
  polys : List (Poly Rgb)
  dark : Rgb
  bright : Rgb
  light : Vec3

/-- Tracer of main.rs (lines 104-107): the precomputed sample directions and
the recursion ceiling. -/
structure Tracer where
  all_dirs : List Vec3
  max_depth : ℕ

/-- Bounce ray built inside Tracer::trace (main.rs lines 165-169): the origin
is the hit point moved `0.01` along the sample direction ("HACK: Move away to
not hit same poly"), not the hit point itself. -/
def bounce_ray (hitPoint : Vec3) (dir : Vec3) : Ray :=
  ⟨vec3_add hitPoint (vec3_scale dir (1 / 100)), dir⟩

/-- Tracer::trace of main.rs (lines 134-188).  On depth exhaustion it returns
`scene.dark`; on a miss it performs the directional sun test against
`scene.light` with threshold `0.4`, returning `scene.bright` or `scene.dark`;
on a hit it folds over the sample directions, skipping those perpendicular to
the surface or on the wrong side, and accumulates the recursive result
multiplied element-wise by the poly's color (field `color` in main.rs,
`surface` here) and scaled by the Lambert weight `|v|`. -/
def Tracer.trace (t : Tracer) (scene : Scene) (ray : Ray) (depth : ℕ) : Rgb :=
  if h : depth > t.max_depth then
    scene.dark
  else
    match shoot scene.polys ray with
    | none =>
      if vec3_dot ray.dir scene.light > 2 / 5 then scene.bright else scene.dark
    | some (hit, poly) =>
      t.all_dirs.foldl
        (fun all_light dir =>
          let v := vec3_dot dir poly.plane.n
          if v = 0 then
            -- Perpendicular to surface.
            all_light
          else if vec3_dot ray.dir poly.plane.n / v > 0 then
            -- Rays are not on the same side of the surface.
            all_light
          else
            let r := bounce_ray hit.point dir
            let lambert := if v < 0 then -v else v
            let light := (t.trace scene r (depth + 1)).map2 poly.surface (fun x y => x * y)
            all_light.map2 light (fun x y => x + y * lambert))
        scene.dark
termination_by t.max_depth + 1 - depth
decreasing_by omega

/-- Fuel-indexed companion of Tracer::trace, structurally recursive on the
fuel; used to witness that the depth-bounded recursion terminates with
`max_depth + 1 - depth` as the decreasing measure. -/
def Tracer.traceFuel (t : Tracer) (scene : Scene) : ℕ → Ray → ℕ → Rgb
  | 0, _, _ => scene.dark
  | fuel + 1, ray, depth =>
    if depth > t.max_depth then
      scene.dark
    else
      match shoot scene.polys ray with
      | none =>
        if vec3_dot ray.dir scene.light > 2 / 5 then scene.bright else scene.dark
      | some (hit, poly) =>
        t.all_dirs.foldl
          (fun all_light dir =>
            let v := vec3_dot dir poly.plane.n
            if v = 0 then
              all_light
            else if vec3_dot ray.dir poly.plane.n / v > 0 then
              all_light
            else
              let r := bounce_ray hit.point dir
              let lambert := if v < 0 then -v else v
              let light := (t.traceFuel scene fuel r (depth + 1)).map2 poly.surface
                (fun x y => x * y)
              all_light.map2 light (fun x y => x + y * lambert))
          scene.dark

/-- Quaternion of the quaternion crate: `(T, [T; 3])`, a scalar part and a
vector part. -/
structure Quat where
  r : ℚ
  v : Vec3
deriving DecidableEq

/-- quaternion::mul of the quaternion crate (external dependency of main.rs):
Hamilton product. -/
def quat_mul (a b : Quat) : Quat :=
  ⟨a.r * b.r - vec3_dot a.v b.v,
   vec3_add (vec3_add (vec3_scale b.v a.r) (vec3_scale a.v b.r)) (vec3_cross a.v b.v)⟩

/-- quaternion::conj of the quaternion crate: conjugate. -/
def quat_conj (a : Quat) : Quat :=
  ⟨a.r, vec3_neg a.v⟩

/-- quaternion::rotate_vector of the quaternion crate: `(q * (0, v) * conj q).1`. -/
def rotate_vector (q : Quat) (v : Vec3) : Vec3 :=
  (quat_mul (quat_mul q ⟨0, v⟩) (quat_conj q)).v

/-- quaternion::euler_angles of the quaternion crate: quaternion from Euler
angles via the half-angle sine/cosine products.  The transcendental `sin` and
`cos` of the scalar type are not rational, so they are taken as parameters:
every statement proved below holds for every interpretation of them. -/
def euler_angles (sin cos : ℚ → ℚ) (x y z : ℚ) : Quat :=
  let half : ℚ := 1 / 2
  ⟨cos (x * half) * cos (y * half) * cos (z * half) +
     sin (x * half) * sin (y * half) * sin (z * half),
   ⟨sin (x * half) * cos (y * half) * cos (z * half) -
      cos (x * half) * sin (y * half) * sin (z * half),
    cos (x * half) * sin (y * half) * cos (z * half) +
      sin (x * half) * cos (y * half) * sin (z * half),
    cos (x * half) * cos (y * half) * sin (z * half) -
      sin (x * half) * sin (y * half) * cos (z * half)⟩⟩

/-- Tracer::new of main.rs (lines 110-132): `step = 360 / rays`; a nested
loop over `x` and `y` in `0..rays` pushes
`rotate_vector(euler_angles(x * step, y * step, 0), [1, 0, 0])`; the
directions are stored alongside `max_depth`.  The nested for/push is embedded
as `flatMap`/`map` over `List.range`.  `sin`/`cos` are the abstract
trigonometric functions threaded into `euler_angles`. -/
def Tracer.new (sin cos : ℚ → ℚ) (rays : ℕ) (max_depth : ℕ) : Tracer :=
  let step : ℚ := 360 / (rays : ℚ)
  let u : Vec3 := ⟨1, 0, 0⟩
  { all_dirs :=
      (List.range rays).flatMap (fun (x : ℕ) =>
        (List.range rays).map (fun (y : ℕ) =>
          rotate_vector (euler_angles sin cos ((x : ℚ) * step) ((y : ℚ) * step) 0) u)),
    max_depth := max_depth }

/-- Modelled from the spec: the spec's §4.1 `NearestHit(triangles, ray,
exclude)` carries an identity-based `exclude` parameter, but neither shoot in
src (main.rs lines 345-360, geom.rs lines 28-43) takes one — the exclusion
variant of the scan is attested only in the spec.  Triangle identity is
modelled as the triangle's position in the scene list; the scan skips the
excluded index, keeps the hit with the smallest distance, and resolves exact
ties first-seen-wins (strict `<` comparison), per §4.1. -/
def shootExcl (polys : List (Poly Surface)) (ray : Ray) (exclude : Option ℕ) :
    Option (Hit × ℕ × Poly Surface) :=
  (polys.enum).foldl
    (fun closest pi =>
      if exclude = some pi.1 then
        closest
      else
        match pi.2.hit ray with
        | none => closest
        | some h =>
          match closest with
          | none => some (h, pi.1, pi.2)
          | some c => if h.dist < c.1.dist then some (h, pi.1, pi.2) else closest)
    none

/-- Modelled from the spec: the recursive transport function of §4.3
(`Trace(scene, ray, exclude, depth)`) over the Surface model of surface.rs.
No trace over `Surface`s exists under src — main.rs's trace works on plain
colors with no emitted/reflected calls and no exclusion — so the spec's
algorithm is modelled faithfully from its five steps: black past `max_depth`;
black on a miss; otherwise start from the hit triangle's `emitted()`, and for
every sample direction with a non-black `reflected(normal, d, ray.dir)`
recurse from the hit point with the hit triangle excluded, scaling by the
Lambert weight `|dot(d, normal)|`. -/
def Tracer.traceS (t : Tracer) (polys : List (Poly Surface)) (ray : Ray)
    (exclude : Option ℕ) (depth : ℕ) : Rgb :=
  if h : depth > t.max_depth then
    Rgb.black
  else
    match shootExcl polys ray exclude with
    | none => Rgb.black
    | some (hit, idx, tri) =>
      t.all_dirs.foldl
        (fun accumulated d =>
          let refl := tri.surface.reflected tri.plane.n d ray.dir
          if refl = Rgb.black then
            accumulated
          else
            let v := vec3_dot d tri.plane.n
            let lambert := |v|
            let rec_light := t.traceS polys ⟨hit.point, d⟩ (some idx) (depth + 1)
            accumulated.map2 (rec_light.map2 refl (fun x y => x * y))
              (fun x y => x + y * lambert))
        tri.surface.emitted
termination_by t.max_depth + 1 - depth
decreasing_by omega

/-- Concrete test triangle in the plane `z = -1`, covering the origin of the
`xy`-plane; its stored plane is exactly what `Poly::new` computes for these
vertices: `cross(v1 - v0, v2 - v0) = (0, 0, 16)` normalises to `(0, 0, 1)`
with offset `dot((0,0,1), v0) = -1` (exact, no irrational square root). -/
def triA : Poly Rgb :=
  { p0 := ⟨-1, -1, -1⟩, p1 := ⟨3, -1, -1⟩, p2 := ⟨-1, 3, -1⟩,
    plane := ⟨⟨0, 0, 1⟩, -1⟩,
    surface := ⟨1, 0, 0⟩ }

/-- The same triangle shifted to the plane `z = -2` (plane offset `-2`). -/
def triB : Poly Rgb :=
  { p0 := ⟨-1, -1, -2⟩, p1 := ⟨3, -1, -2⟩, p2 := ⟨-1, 3, -2⟩,
    plane := ⟨⟨0, 0, 1⟩, -2⟩,
    surface := ⟨0, 1, 0⟩ }

/-- The geometry of `triA` carrying a Light surface. -/
def triL : Poly Surface :=
  { p0 := ⟨-1, -1, -1⟩, p1 := ⟨3, -1, -1⟩, p2 := ⟨-1, 3, -1⟩,
    plane := ⟨⟨0, 0, 1⟩, -1⟩,
    surface := Surface.light ⟨1, 1, 1 / 2⟩ }

/-- Ray from the origin along the negative `z` axis: hits `triA` at
`(0, 0, -1)` with distance `1` and `triB` at `(0, 0, -2)` with distance `2`. -/
def rayZ : Ray := ⟨⟨0, 0, 0⟩, ⟨0, 0, -1⟩⟩

/-- Dot product is negated when its right argument is negated. -/
theorem vec3_dot_neg_right (a b : Vec3) : vec3_dot a (vec3_neg b) = -(vec3_dot a b) := by
  simp only [vec3_dot, vec3_neg]
  ring

/-- A fold whose step function never changes the accumulator returns the
initial accumulator. -/
theorem foldl_fixed {α β : Type} (f : β → α → β) (hf : ∀ b a, f b a = b) :
    ∀ (l : List α) (acc : β), l.foldl f acc = acc := by
  intro l
  induction l with
  | nil => intro acc; rfl
  | cons a l ih => intro acc; rw [List.foldl_cons, hf]; exact ih acc

/-- Folds of pointwise-equal step functions agree. -/
theorem foldl_funext {α β : Type} (f g : β → α → β) (hfg : ∀ b a, f b a = g b a) :
    ∀ (l : List α) (acc : β), l.foldl f acc = l.foldl g acc := by
  intro l
  induction l with
  | nil => intro acc; rfl
  | cons a l ih => intro acc; rw [List.foldl_cons, List.foldl_cons, hfg]; exact ih _

/-- C7: Matt{color}.reflected returns black on a grazing incoming ray
(`dot(i, n) == 0`), black whenever `dot(o, n) / dot(i, n) > 0` (incoming and
outgoing on the same side), and otherwise the stored color with no cosine
attenuation; Matt.emitted() is black. -/
theorem matt_reflected_cases : ∀ (c : Rgb) (n i o : Vec3),
    (Surface.matt c).emitted = Rgb.black ∧
    (vec3_dot i n = 0 → (Surface.matt c).reflected n i o = Rgb.black) ∧
    (vec3_dot o n / vec3_dot i n > 0 → (Surface.matt c).reflected n i o = Rgb.black) ∧
    (vec3_dot i n ≠ 0 → ¬(vec3_dot o n / vec3_dot i n > 0) →
      (Surface.matt c).reflected n i o = c) := by
  intro c n i o
  refine ⟨rfl, ?_, ?_, ?_⟩
  · intro h
    simp [Surface.reflected, h]
  · intro hpos
    have hne : vec3_dot i n ≠ 0 := by
      intro h0
      rw [h0, div_zero] at hpos
      exact lt_irrefl 0 hpos
    simp [Surface.reflected, hne, hpos]
  · intro hne hnpos
    simp [Surface.reflected, hne, hnpos]

/-- Witness for C7: concrete grazing, same-side and transmitting queries
against a matte surface with color `(1/2, 0, 0)` and normal `(0, 0, 1)`. -/
theorem matt_reflected_cases_witness :
    (Surface.matt ⟨1 / 2, 0, 0⟩).reflected ⟨0, 0, 1⟩ ⟨1, 0, 0⟩ ⟨0, 0, 1⟩ = Rgb.black ∧
    (Surface.matt ⟨1 / 2, 0, 0⟩).reflected ⟨0, 0, 1⟩ ⟨0, 0, -1⟩ ⟨0, 0, -1⟩ = Rgb.black ∧
    (Surface.matt ⟨1 / 2, 0, 0⟩).reflected ⟨0, 0, 1⟩ ⟨0, 0, -1⟩ ⟨0, 0, 1⟩ = ⟨1 / 2, 0, 0⟩ :=
  ⟨(matt_reflected_cases _ _ _ _).2.1 (by norm_num [vec3_dot]),
   (matt_reflected_cases _ _ _ _).2.2.1 (by norm_num [vec3_dot]),
   (matt_reflected_cases _ _ _ _).2.2.2 (by norm_num [vec3_dot]) (by norm_num [vec3_dot])⟩

/-- C10: Matt's reflectance is invariant under negating the surface normal,
so the triangle winding order does not affect what a matte surface reflects. -/
theorem matt_reflected_neg_normal : ∀ (c : Rgb) (n i o : Vec3),
    (Surface.matt c).reflected (vec3_neg n) i o = (Surface.matt c).reflected n i o := by
  intro c n i o
  unfold Surface.reflected
  simp only [vec3_dot_neg_right]
  by_cases h : vec3_dot i n = 0
  · simp [h]
  · have h' : -vec3_dot i n ≠ 0 := neg_ne_zero.mpr h
    simp [h, h', neg_div_neg_eq]

/-- C8: Poly::hit returns none for a ray parallel to the triangle's plane
(`dot(n, dir) == 0`) and none when the signed distance
`t = (offset - dot(n, orig)) / denom` is non-positive (strict `t > 0` is
required, so a hit exactly at the ray origin is rejected). -/
theorem hit_parallel_or_behind : ∀ {S : Type} (p : Poly S) (ray : Ray),
    (vec3_dot p.plane.n ray.dir = 0 → p.hit ray = none) ∧
    (vec3_dot p.plane.n ray.dir ≠ 0 →
      (-(vec3_dot p.plane.n ray.orig) + p.plane.d) / vec3_dot p.plane.n ray.dir ≤ 0 →
      p.hit ray = none) := by
  intro S p ray
  constructor
  · intro h
    simp [Poly.hit, h]
  · intro h hd
    simp [Poly.hit, h, hd]

/-- Witness for C8: a ray along `x` is parallel to the `z = -1` plane of
`triA`; a ray leaving `triA`'s plane upward from above it gets `t = -6 ≤ 0`. -/
theorem hit_parallel_or_behind_witness :
    Poly.hit triA ⟨⟨0, 0, 0⟩, ⟨1, 0, 0⟩⟩ = none ∧
    Poly.hit triA ⟨⟨0, 0, 5⟩, ⟨0, 0, 1⟩⟩ = none :=
  ⟨(hit_parallel_or_behind triA ⟨⟨0, 0, 0⟩, ⟨1, 0, 0⟩⟩).1 (by norm_num [vec3_dot, triA]),
   (hit_parallel_or_behind triA ⟨⟨0, 0, 5⟩, ⟨0, 0, 1⟩⟩).2 (by norm_num [vec3_dot, triA])
     (by norm_num [vec3_dot, triA])⟩

/-- A result of the shoot fold is either the initial accumulator or an actual
hit of a polygon in the scanned list. -/
theorem shoot_foldl_result {S : Type} (ray : Ray) :
    ∀ (l : List (Poly S)) (acc : Option (Hit × Poly S)) (h : Hit) (p : Poly S),
      l.foldl (shootStep ray) acc = some (h, p) →
      acc = some (h, p) ∨ (p ∈ l ∧ p.hit ray = some h) := by
  intro l
  induction l with
  | nil =>
    intro acc h p hfold
    exact Or.inl hfold
  | cons q l ih =>
    intro acc h p hfold
    rw [List.foldl_cons] at hfold
    rcases ih _ h p hfold with hstep | ⟨hmem, hhit⟩
    · cases hq : q.hit ray with
      | none =>
        simp only [shootStep, hq] at hstep
        exact Or.inl hstep
      | some hq' =>
        cases acc with
        | none =>
          simp only [shootStep, hq, Option.some.injEq, Prod.mk.injEq] at hstep
          obtain ⟨rfl, rfl⟩ := hstep
          exact Or.inr ⟨List.mem_cons_self _ _, hq⟩
        | some c =>
          simp only [shootStep, hq] at hstep
          by_cases hlt : c.1.dist > hq'.dist
          · rw [if_pos hlt] at hstep
            obtain ⟨rfl, rfl⟩ := by
              simpa only [Option.some.injEq, Prod.mk.injEq] using hstep
            exact Or.inr ⟨List.mem_cons_self _ _, hq⟩
          · rw [if_neg hlt] at hstep
            exact Or.inl hstep
    · exact Or.inr ⟨List.mem_cons_of_mem _ hmem, hhit⟩

/-- The hit kept by the shoot fold has the smallest distance: it is bounded by
every hit in the scanned list and by the initial accumulator's distance. -/
theorem shoot_foldl_min {S : Type} (ray : Ray) :
    ∀ (l : List (Poly S)) (acc : Option (Hit × Poly S)) (h : Hit) (p : Poly S),
      l.foldl (shootStep ray) acc = some (h, p) →
      (∀ q ∈ l, ∀ h', q.hit ray = some h' → h.dist ≤ h'.dist) ∧
      (∀ c, acc = some c → h.dist ≤ c.1.dist) := by
  intro l
  induction l with
  | nil =>
    intro acc h p hfold
    rw [List.foldl_nil] at hfold
    refine ⟨by simp, ?_⟩
    intro c hacc
    rw [hfold] at hacc
    obtain rfl := Option.some.inj hacc
    exact le_refl _
  | cons q l ih =>
    intro acc h p hfold
    rw [List.foldl_cons] at hfold
    obtain ⟨ihl, ihacc⟩ := ih _ h p hfold
    constructor
    · intro q' hq' h' hhit'
      rcases List.mem_cons.mp hq' with rfl | hmem
      · cases acc with
        | none =>
          have hs : shootStep ray none q' = some (h', q') := by simp [shootStep, hhit']
          exact ihacc _ hs
        | some c =>
          by_cases hlt : c.1.dist > h'.dist
          · have hs : shootStep ray (some c) q' = some (h', q') := by
              simp [shootStep, hhit', hlt]
            exact ihacc _ hs
          · have hs : shootStep ray (some c) q' = some c := by
              simp [shootStep, hhit', hlt]
            exact le_trans (ihacc _ hs) (not_lt.mp hlt)
      · exact ihl q' hmem h' hhit'
    · intro c hacc
      subst hacc
      cases hq : q.hit ray with
      | none =>
        have hs : shootStep ray (some c) q = some c := by simp [shootStep, hq]
        exact ihacc _ hs
      | some h' =>
        by_cases hlt : c.1.dist > h'.dist
        · have hs : shootStep ray (some c) q = some (h', q) := by simp [shootStep, hq, hlt]
          exact le_trans (ihacc _ hs) (le_of_lt hlt)
        · have hs : shootStep ray (some c) q = some c := by simp [shootStep, hq, hlt]
          exact ihacc _ hs

/-- When the shoot fold comes back empty, the accumulator was empty and no
polygon in the scanned list is hit. -/
theorem shoot_foldl_none {S : Type} (ray : Ray) :
    ∀ (l : List (Poly S)) (acc : Option (Hit × Poly S)),
      l.foldl (shootStep ray) acc = none → acc = none ∧ ∀ q ∈ l, q.hit ray = none := by
  intro l
  induction l with
  | nil =>
    intro acc hfold
    exact ⟨hfold, by simp⟩
  | cons q l ih =>
    intro acc hfold
    rw [List.foldl_cons] at hfold
    obtain ⟨hstep, hl⟩ := ih _ hfold
    have hqacc : q.hit ray = none ∧ acc = none := by
      cases hqh : q.hit ray with
      | none =>
        simp only [shootStep, hqh] at hstep
        exact ⟨rfl, hstep⟩
      | some h' =>
        cases acc with
        | none => simp [shootStep, hqh] at hstep
        | some c =>
          simp only [shootStep, hqh] at hstep
          split at hstep <;> simp at hstep
    refine ⟨hqacc.2, ?_⟩
    intro q' hq'
    rcases List.mem_cons.mp hq' with rfl | hm
    · exact hqacc.1
    · exact hl q' hm

/-- C4: shoot returns the hit with the smallest distance among all polygons
the ray hits (and none exactly when no polygon is hit); for two polygons hit
at strictly different distances the returned polygon does not depend on their
order in the list, and an exact tie is resolved first-seen-wins. -/
theorem shoot_nearest_order_indep : ∀ {S : Type} (ray : Ray),
    (∀ (polys : List (Poly S)) (h : Hit) (p : Poly S),
      shoot polys ray = some (h, p) →
      p ∈ polys ∧ p.hit ray = some h ∧
        ∀ q ∈ polys, ∀ h', q.hit ray = some h' → h.dist ≤ h'.dist) ∧
    (∀ polys : List (Poly S), shoot polys ray = none → ∀ q ∈ polys, q.hit ray = none) ∧
    (∀ (p q : Poly S) (hp hq : Hit), p.hit ray = some hp → q.hit ray = some hq →
      (hp.dist < hq.dist →
        shoot [p, q] ray = some (hp, p) ∧ shoot [q, p] ray = some (hp, p)) ∧
      (hp.dist = hq.dist →
        shoot [p, q] ray = some (hp, p) ∧ shoot [q, p] ray = some (hq, q))) := by
  intro S ray
  refine ⟨?_, ?_, ?_⟩
  · intro polys h p hs
    rcases shoot_foldl_result ray polys none h p hs with hnone | ⟨hmem, hhit⟩
    · exact absurd hnone (by simp)
    · exact ⟨hmem, hhit, (shoot_foldl_min ray polys none h p hs).1⟩
  · intro polys hs
    exact (shoot_foldl_none ray polys none hs).2
  · intro p q hp hq hhp hhq
    have e1 : shoot [p, q] ray = shootStep ray (shootStep ray none p) q := rfl
    have e2 : shoot [q, p] ray = shootStep ray (shootStep ray none q) p := rfl
    have s1 : shootStep ray none p = some (hp, p) := by simp [shootStep, hhp]
    have s2 : shootStep ray none q = some (hq, q) := by simp [shootStep, hhq]
    constructor
    · intro hlt
      constructor
      · rw [e1, s1]
        simp [shootStep, hhq, lt_asymm hlt]
      · rw [e2, s2]
        simp [shootStep, hhp, hlt]
    · intro heq
      constructor
      · rw [e1, s1]
        simp [shootStep, hhq, heq]
      · rw [e2, s2]
        simp [shootStep, hhp, heq]

/-- Evaluation: `triA` is hit by `rayZ` at `(0, 0, -1)`, distance `1`. -/
theorem triA_hit_rayZ : triA.hit rayZ = some ⟨⟨0, 0, -1⟩, 1⟩ := by
  norm_num [Poly.hit, triA, rayZ, vec3_dot, vec3_add, vec3_scale, vec3_sub, vec3_cross,
    edge_ok]

/-- Evaluation: `triB` is hit by `rayZ` at `(0, 0, -2)`, distance `2`. -/
theorem triB_hit_rayZ : triB.hit rayZ = some ⟨⟨0, 0, -2⟩, 2⟩ := by
  norm_num [Poly.hit, triB, rayZ, vec3_dot, vec3_add, vec3_scale, vec3_sub, vec3_cross,
    edge_ok]

/-- Witness for C4: two parallel triangles across `rayZ`, in both orders, both
returning the closer triangle `triA`. -/
theorem shoot_nearest_order_indep_witness :
    shoot [triA, triB] rayZ = some (⟨⟨0, 0, -1⟩, 1⟩, triA) ∧
    shoot [triB, triA] rayZ = some (⟨⟨0, 0, -1⟩, 1⟩, triA) :=
  ((shoot_nearest_order_indep rayZ).2.2 triA triB ⟨⟨0, 0, -1⟩, 1⟩ ⟨⟨0, 0, -2⟩, 2⟩
    triA_hit_rayZ triB_hit_rayZ).1 (by norm_num)

/-- C5 counterexample: at depth 4 with `max_depth = 3`, trace returns the
scene's `dark` color, and a scene whose `dark` is `(1, 1, 1)` therefore gets a
non-black result — the claim's "returns black regardless of scene content"
fails at this input. -/
theorem trace_depth_nonblack_counterexample :
    Tracer.trace ⟨[], 3⟩ ⟨[], ⟨1, 1, 1⟩, ⟨2, 2, 2⟩, ⟨1, 0, 0⟩⟩ ⟨⟨0, 0, 0⟩, ⟨1, 0, 0⟩⟩ 4 =
      ⟨1, 1, 1⟩ ∧
    (⟨1, 1, 1⟩ : Rgb) ≠ Rgb.black := by
  constructor
  · rw [Tracer.trace, dif_pos (by decide)]
  · simp [Rgb.black]

/-- C5 as amended: for depth strictly above `max_depth`, trace returns
`scene.dark` — the scene's configured dark color (black in the program's own
scene) — for every scene, ray and sample-direction set. -/
theorem trace_depth_exceeded_dark : ∀ (t : Tracer) (scene : Scene) (ray : Ray) (depth : ℕ),
    depth > t.max_depth → t.trace scene ray depth = scene.dark := by
  intro t scene ray depth h
  rw [Tracer.trace, dif_pos h]

/-- Witness for C5's amended theorem at depth 4, ceiling 3. -/
theorem trace_depth_exceeded_dark_witness :
    Tracer.trace ⟨[], 3⟩ ⟨[], ⟨1, 1, 1⟩, ⟨2, 2, 2⟩, ⟨1, 0, 0⟩⟩ ⟨⟨0, 0, 0⟩, ⟨1, 0, 0⟩⟩ 4 =
      ⟨1, 1, 1⟩ :=
  trace_depth_exceeded_dark ⟨[], 3⟩ ⟨[], ⟨1, 1, 1⟩, ⟨2, 2, 2⟩, ⟨1, 0, 0⟩⟩
    ⟨⟨0, 0, 0⟩, ⟨1, 0, 0⟩⟩ 4 (by decide)

/-- C1 counterexample: on an empty scene (so the nearest-hit search finds
nothing) whose sun direction agrees with the ray (`dot = 1 > 0.4`), trace
returns `scene.bright = (255, 255, 255)`, not black: the directional sun test
sits inside trace itself. -/
theorem trace_nohit_sun_counterexample :
    shoot ([] : List (Poly Rgb)) ⟨⟨0, 0, 0⟩, ⟨1, 0, 0⟩⟩ = none ∧
    Tracer.trace ⟨[], 3⟩ ⟨[], Rgb.black, ⟨255, 255, 255⟩, ⟨1, 0, 0⟩⟩
      ⟨⟨0, 0, 0⟩, ⟨1, 0, 0⟩⟩ 0 = ⟨255, 255, 255⟩ ∧
    (⟨255, 255, 255⟩ : Rgb) ≠ Rgb.black := by
  refine ⟨rfl, ?_, ?_⟩
  · rw [Tracer.trace, dif_neg (by decide)]
    norm_num [shoot, vec3_dot]
  · simp [Rgb.black]

/-- C1 as amended: when the nearest-hit search finds no triangle, trace
returns `scene.bright` when `dot(ray.dir, scene.light) > 0.4` (the sun test,
inside trace) and `scene.dark` otherwise. -/
theorem trace_nohit_sun : ∀ (t : Tracer) (scene : Scene) (ray : Ray) (depth : ℕ),
    depth ≤ t.max_depth → shoot scene.polys ray = none →
    t.trace scene ray depth =
      if vec3_dot ray.dir scene.light > 2 / 5 then scene.bright else scene.dark := by
  intro t scene ray depth hd hs
  rw [Tracer.trace, dif_neg (by omega)]
  rw [hs]

/-- Witness for C1's amended theorem: the empty scene with the sun along the
ray direction yields the bright color. -/
theorem trace_nohit_sun_witness :
    Tracer.trace ⟨[], 3⟩ ⟨[], ⟨0, 0, 0⟩, ⟨255, 255, 255⟩, ⟨1, 0, 0⟩⟩
      ⟨⟨0, 0, 0⟩, ⟨1, 0, 0⟩⟩ 0 = ⟨255, 255, 255⟩ := by
  have h := trace_nohit_sun ⟨[], 3⟩ ⟨[], ⟨0, 0, 0⟩, ⟨255, 255, 255⟩, ⟨1, 0, 0⟩⟩
    ⟨⟨0, 0, 0⟩, ⟨1, 0, 0⟩⟩ 0 (by decide) rfl
  rw [h]
  norm_num [vec3_dot]

/-- C6: trace is total — the recursion is well founded on `max_depth + 1 -
depth` (each bounce recurses at `depth + 1` under the guard `depth ≤
max_depth`), so the structurally fuelled companion stabilises to it as soon
as the fuel covers `max_depth + 1 - depth`. -/
theorem traceFuel_eq_trace : ∀ (t : Tracer) (scene : Scene) (fuel : ℕ) (ray : Ray)
    (depth : ℕ), t.max_depth + 1 - depth ≤ fuel →
    t.traceFuel scene fuel ray depth = t.trace scene ray depth := by
  intro t scene fuel
  induction fuel with
  | zero =>
    intro ray depth hf
    have hd : depth > t.max_depth := by omega
    rw [Tracer.trace, dif_pos hd]
    rfl
  | succ fuel ih =>
    intro ray depth hf
    rw [Tracer.trace]
    by_cases hd : depth > t.max_depth
    · rw [dif_pos hd]
      simp only [Tracer.traceFuel]
      rw [if_pos hd]
    · rw [dif_neg hd]
      simp only [Tracer.traceFuel]
      rw [if_neg hd]
      cases hs : shoot scene.polys ray with
      | none => rfl
      | some hp =>
        obtain ⟨hit, poly⟩ := hp
        apply foldl_funext
        intro all_light dir
        by_cases hv : vec3_dot dir poly.plane.n = 0
        · simp [hv]
        · by_cases hside : vec3_dot ray.dir poly.plane.n / vec3_dot dir poly.plane.n > 0
          · simp [hv, hside]
          · have hrec := ih (bounce_ray hit.point dir) (depth + 1) (by omega)
            simp [hv, hside, hrec]

/-- Witness for C6: with ceiling 3 and starting depth 0, fuel 4 already
equals the well-founded trace on a concrete scene and ray. -/
theorem traceFuel_eq_trace_witness :
    Tracer.traceFuel ⟨[], 3⟩ ⟨[], ⟨0, 0, 0⟩, ⟨255, 255, 255⟩, ⟨1, 0, 0⟩⟩ 4
      ⟨⟨0, 0, 0⟩, ⟨1, 0, 0⟩⟩ 0 =
    Tracer.trace ⟨[], 3⟩ ⟨[], ⟨0, 0, 0⟩, ⟨255, 255, 255⟩, ⟨1, 0, 0⟩⟩
      ⟨⟨0, 0, 0⟩, ⟨1, 0, 0⟩⟩ 0 :=
  traceFuel_eq_trace ⟨[], 3⟩ ⟨[], ⟨0, 0, 0⟩, ⟨255, 255, 255⟩, ⟨1, 0, 0⟩⟩ 4
    ⟨⟨0, 0, 0⟩, ⟨1, 0, 0⟩⟩ 0 (by decide)

/-- Evaluation: `triL` (the Light-surfaced copy of `triA`) is hit by `rayZ`
at `(0, 0, -1)`, distance `1`. -/
theorem triL_hit_rayZ : triL.hit rayZ = some ⟨⟨0, 0, -1⟩, 1⟩ := by
  norm_num [Poly.hit, triL, rayZ, vec3_dot, vec3_add, vec3_scale, vec3_sub, vec3_cross,
    edge_ok]

/-- Evaluation: the exclusion-free nearest-hit scan over the one-triangle
scene `[triL]` finds it. -/
theorem shootExcl_triL : shootExcl [triL] rayZ none = some (⟨⟨0, 0, -1⟩, 1⟩, 0, triL) := by
  simp [shootExcl, triL_hit_rayZ]

/-- C2: a scene consisting of one Light-surfaced triangle visible to the ray
traces to exactly the light's emitted color: the accumulator starts at the
hit triangle's `emitted()`, and since `Light.reflected` is black for all
arguments the bounce loop is skipped wholesale by the black-reflection test,
whatever the sample-direction set. -/
theorem traceS_single_light : ∀ (t : Tracer) (ray : Ray) (depth : ℕ) (c : Rgb)
    (tri : Poly Surface) (h : Hit),
    depth ≤ t.max_depth →
    tri.surface = Surface.light c →
    shootExcl [tri] ray none = some (h, 0, tri) →
    (∀ n i o, (Surface.light c).reflected n i o = Rgb.black) ∧
    t.traceS [tri] ray none depth = c := by
  intro t ray depth c tri h hdep hsurf hshoot
  refine ⟨fun n i o => rfl, ?_⟩
  rw [Tracer.traceS, dif_neg (by omega), hshoot]
  refine Eq.trans (foldl_fixed _ ?_ _ _) ?_
  · intro b a
    simp [hsurf, Surface.reflected]
  · rw [hsurf]
    rfl

/-- Witness for C2: the one-light scene `[triL]` traced with a two-direction
tracer returns the light color `(1, 1, 1/2)`. -/
theorem traceS_single_light_witness :
    Tracer.traceS ⟨[⟨1, 0, 0⟩, ⟨0, 0, 1⟩], 3⟩ [triL] rayZ none 0 = ⟨1, 1, 1 / 2⟩ :=
  (traceS_single_light ⟨[⟨1, 0, 0⟩, ⟨0, 0, 1⟩], 3⟩ rayZ 0 ⟨1, 1, 1 / 2⟩ triL
    ⟨⟨0, 0, -1⟩, 1⟩ (by decide) rfl shootExcl_triL).2

/-- C3 counterexample: at hit point `(0, 0, 0)` and sample direction
`(1, 0, 0)`, the bounce ray built by trace has origin `(1/100, 0, 0)`, not the
hit point — the claim's "origin exactly equal to the hit point" is false. -/
theorem bounce_ray_origin_counterexample :
    (bounce_ray ⟨0, 0, 0⟩ ⟨1, 0, 0⟩).orig ≠ (⟨0, 0, 0⟩ : Vec3) := by
  norm_num [bounce_ray, vec3_add, vec3_scale]

/-- C3 as amended: the bounce ray keeps the sample direction but its origin is
the hit point offset by `0.01` along that direction (hence never the hit point
for a nonzero direction), and no exclusion is passed — main.rs's shoot scans
every triangle.  In the spec-modelled exclusion variant, excluding the only
triangle a ray would hit makes `NearestHit` return none, while the
non-excluded call returns that hit. -/
theorem bounce_offset_no_exclusion : ∀ (hp d : Vec3) (tri : Poly Surface) (ray : Ray)
    (h : Hit),
    (d ≠ ⟨0, 0, 0⟩ → (bounce_ray hp d).orig ≠ hp) ∧
    (bounce_ray hp d).dir = d ∧
    shootExcl [tri] ray (some 0) = none ∧
    (tri.hit ray = some h → shootExcl [tri] ray none = some (h, 0, tri)) := by
  intro hp d tri ray h
  refine ⟨?_, rfl, ?_, ?_⟩
  · intro hd heq
    apply hd
    have hx := congrArg Vec3.x heq
    have hy := congrArg Vec3.y heq
    have hz := congrArg Vec3.z heq
    simp only [bounce_ray, vec3_add, vec3_scale] at hx hy hz
    obtain ⟨dx, dy, dz⟩ := d
    simp only [] at hx hy hz
    simp only [Vec3.mk.injEq]
    exact ⟨by linarith, by linarith, by linarith⟩
  · simp [shootExcl]
  · intro hh
    simp [shootExcl, hh]

/-- Witness for C3's amended theorem on the concrete one-triangle scene. -/
theorem bounce_offset_no_exclusion_witness :
    (bounce_ray ⟨0, 0, 0⟩ ⟨1, 0, 0⟩).orig ≠ (⟨0, 0, 0⟩ : Vec3) ∧
    (bounce_ray ⟨0, 0, 0⟩ ⟨1, 0, 0⟩).dir = ⟨1, 0, 0⟩ ∧
    shootExcl [triL] rayZ (some 0) = none ∧
    shootExcl [triL] rayZ none = some (⟨⟨0, 0, -1⟩, 1⟩, 0, triL) := by
  obtain ⟨h1, h2, h3, h4⟩ :=
    bounce_offset_no_exclusion ⟨0, 0, 0⟩ ⟨1, 0, 0⟩ triL rayZ ⟨⟨0, 0, -1⟩, 1⟩
  exact ⟨h1 (by simp), h2, h3, h4 triL_hit_rayZ⟩

/-- Flattening a square nested loop over `range n` yields `n * n` elements. -/
theorem flatMap_square_length {α : Type} (n : ℕ) (f : ℕ → ℕ → α) :
    ((List.range n).flatMap (fun x => (List.range n).map (f x))).length = n * n := by
  rw [List.length_flatMap]
  have h1 : List.map (List.length ∘ fun x => List.map (f x) (List.range n)) (List.range n) =
      List.map (fun _ => n) (List.range n) := by
    apply List.map_congr_left
    intro a _
    simp
  rw [h1, List.map_const', List.sum_replicate, List.length_range, smul_eq_mul]

/-- Membership in a flattened square nested loop over `range n`. -/
theorem flatMap_square_mem {α : Type} (n : ℕ) (f : ℕ → ℕ → α) (d : α) :
    d ∈ (List.range n).flatMap (fun x => (List.range n).map (f x)) ↔
      ∃ x, x < n ∧ ∃ y, y < n ∧ d = f x y := by
  simp only [List.mem_flatMap, List.mem_map, List.mem_range]
  constructor
  · rintro ⟨x, hx, y, hy, rfl⟩
    exact ⟨x, hx, y, hy, rfl⟩
  · rintro ⟨x, hx, y, hy, rfl⟩
    exact ⟨x, hx, y, hy, rfl⟩

/-- C9: Tracer::new generates exactly `rays²` sample directions — precisely
the rotations of the fixed reference vector `(1, 0, 0)` by quaternions from
the two Euler angles stepped through `x * (360 / rays)` and `y * (360 / rays)`
for `x, y ∈ [0, rays)` (so both angles range over `[0°, 360°)`) — and stores
`max_depth` unchanged; this holds for every interpretation of `sin`/`cos`. -/
theorem tracer_new_dirs : ∀ (sin cos : ℚ → ℚ) (rays max_depth : ℕ),
    (Tracer.new sin cos rays max_depth).all_dirs.length = rays * rays ∧
    (Tracer.new sin cos rays max_depth).max_depth = max_depth ∧
    ∀ d : Vec3, d ∈ (Tracer.new sin cos rays max_depth).all_dirs ↔
      ∃ x, x < rays ∧ ∃ y, y < rays ∧
        d = rotate_vector
              (euler_angles sin cos ((x : ℚ) * (360 / (rays : ℚ)))
                ((y : ℚ) * (360 / (rays : ℚ))) 0)
              ⟨1, 0, 0⟩ := by
  intro sin cos rays max_depth
  unfold Tracer.new
  refine ⟨?_, rfl, ?_⟩
  · exact flatMap_square_length rays _
  · intro d
    exact flatMap_square_mem rays _ d

/-- Witness for C9: with `rays = 2`, `max_depth = 5`, and zero/one stand-ins
for sine and cosine, the tracer stores `4` directions, keeps `max_depth = 5`,
and the `x = y = 1` sample is among the stored directions. -/
theorem tracer_new_dirs_witness :
    (Tracer.new (fun _ => (0 : ℚ)) (fun _ => (1 : ℚ)) 2 5).all_dirs.length = 4 ∧
    (Tracer.new (fun _ => (0 : ℚ)) (fun _ => (1 : ℚ)) 2 5).max_depth = 5 ∧
    rotate_vector
      (euler_angles (fun _ => (0 : ℚ)) (fun _ => (1 : ℚ)) (((1 : ℕ) : ℚ) * (360 / ((2 : ℕ) : ℚ)))
        (((1 : ℕ) : ℚ) * (360 / ((2 : ℕ) : ℚ))) 0) ⟨1, 0, 0⟩ ∈
      (Tracer.new (fun _ => (0 : ℚ)) (fun _ => (1 : ℚ)) 2 5).all_dirs := by
  obtain ⟨h1, h2, h3⟩ := tracer_new_dirs (fun _ => (0 : ℚ)) (fun _ => (1 : ℚ)) 2 5
  exact ⟨h1, h2, (h3 _).mpr ⟨1, by decide, 1, by decide, rfl⟩⟩

end Raytrace
